import Mathlib

/- Verification of the order-book core of `src/Bitget_Spot_Orderbook.py` /
   `src/app.py` (class `BitgetManager`; the two files agree on every function
   modelled here).

   Embedding conventions:
   * `Decimal` values are modelled as exact rationals `ℚ`.  A raw numeric feed
     value is `Option ℚ`: `none` stands for a value the helper `D` fails to
     parse (the source coerces such failures to `Decimal(0)`).
   * Traded prices are kept as `String`s, exactly as the source keeps
     `last_price_str` / `prev_price_str` and compares them with string
     (in)equality.
   * Network requests are modelled by passing the parsed response (or `none`
     for the exception path) as an argument to the state-transition function
     translated from the body of the corresponding method. -/

/-- A book side: the Python dict `Decimal price -> Decimal qty`, as an
insertion-ordered association list with unique keys. -/
abbrev Side := List (ℚ × ℚ)

/-- A raw numeric feed value, abstracted to its parse result. -/
abbrev RawVal := Option ℚ

/-- A raw `[price, quantity]` entry from the feed (possibly too short). -/
abbrev RawEntry := List RawVal

/-- Helper `D(x)` of the source: parse as `Decimal`, returning `Decimal(0)`
on `InvalidOperation`/`TypeError`/`ValueError`. -/
def D (x : RawVal) : ℚ := x.getD 0

/-- Python dict assignment `side[p] = q`: overwrite in place if the key is
present (keeping its position), otherwise append. -/
def setLevel : Side → ℚ → ℚ → Side
  | [], p, q => [(p, q)]
  | (p', q') :: rest, p, q =>
      if p' = p then (p, q) :: rest else (p', q') :: setLevel rest p q

/-- Python `side.pop(p, None)`: remove the key `p` if present. -/
def popLevel (side : Side) (p : ℚ) : Side :=
  side.filter (fun e => decide (e.1 ≠ p))

/-- Python dict lookup `side.get(p)`. -/
def lookupLevel : Side → ℚ → Option ℚ
  | [], _ => none
  | (p', q') :: rest, p => if p' = p then some q' else lookupLevel rest p

/-- The mutable state of `BitgetManager` relevant to the claims
(threads, the cached dataframe and wall-clock fields are omitted). -/
structure Manager where
  bids : Side
  asks : Side
  last_price_str : String
  prev_price_str : String
  symbol : String
  top_n : ℕ
  running : Bool

/-- `BitgetManager.__init__`: empty books, empty price strings,
symbol `BTCUSDT`, `top_n = 5`, not running. -/
def initManager : Manager :=
  ⟨[], [], "", "", "BTCUSDT", 5, false⟩

/-- One entry of an `apply_books` delta batch:
`p, q = D(it[0]), D(it[1])` (an `IndexError` on a short entry is caught and
the entry skipped); then `if q == 0: side.pop(p, None) else: side[p] = q`. -/
def applyEntry (side : Side) (it : RawEntry) : Side :=
  match it with
  | v0 :: v1 :: _ =>
      if D v1 = 0 then popLevel side (D v0) else setLevel side (D v0) (D v1)
  | _ => side

/-- One data block of a stream message: optional `bids`/`asks` arrays
(an absent key behaves as `[]`, via `block.get("bids", [])` and the
truthiness test in `_on_message`) and the three optional trade price
fields `p`, `price`, `last`. -/
structure Block where
  bids : List RawEntry
  asks : List RawEntry
  p : Option String
  price : Option String
  last : Option String

/-- One block step of `BitgetManager.apply_books`: bids first, then asks. -/
def applyBooksBlock (m : Manager) (b : Block) : Manager :=
  { m with bids := b.bids.foldl applyEntry m.bids,
           asks := b.asks.foldl applyEntry m.asks }

/-- `BitgetManager.apply_books`: fold the delta blocks in order. -/
def apply_books (m : Manager) (blocks : List Block) : Manager :=
  blocks.foldl applyBooksBlock m

/-- One entry of the REST orderbook snapshot:
`if not item or len(item) < 2: continue`, then `side[D(p)] = D(q)` —
the parsed quantity is stored with no further check. -/
def initEntry (side : Side) (it : RawEntry) : Side :=
  match it with
  | v0 :: v1 :: _ => setLevel side (D v0) (D v1)
  | _ => side

/-- Book half of `BitgetManager.init_snapshot_and_price`.
`resp = none` models the `except` path (network error, or `r.json()`
raising on a malformed body): the state is left untouched.  A non-200
response gives `js = {}` hence `some ([], [])`: the code then clears both
sides and inserts nothing. -/
def init_snapshot_books (m : Manager)
    (resp : Option (List RawEntry × List RawEntry)) : Manager :=
  match resp with
  | none => m
  | some (rawBids, rawAsks) =>
      { m with bids := rawBids.foldl initEntry [],
               asks := rawAsks.foldl initEntry [] }

/-- Python truthiness of an optional string (`None` and `""` are falsy). -/
def truthyStr : Option String → Bool
  | none => false
  | some s => if s = "" then false else true

/-- Python `a or b` on optional strings: first operand if truthy, else second. -/
def orStr (a b : Option String) : Option String :=
  if truthyStr a then a else b

/-- `entry.get("lastPr") or entry.get("last") or entry.get("price")`;
the subsequent guard is `p is not None`, i.e. `Option.isSome` here. -/
def extractPrice (lastPr lastF price : Option String) : Option String :=
  orStr (orStr lastPr lastF) price

/-- Ticker half of `BitgetManager.init_snapshot_and_price`: when a price `p`
was found (`p is not None`), shift current to previous and set the new
current, with no comparison against the stored current.  `none` models a
failed request or an entry carrying no usable price. -/
def init_snapshot_ticker (m : Manager) (p : Option String) : Manager :=
  match p with
  | none => m
  | some s => { m with prev_price_str := m.last_price_str,
                       last_price_str := s }

/-- One iteration of `BitgetManager._ticker_poll_loop` with response price
`p`: update only when `str(p) != self.last_price_str`. -/
def ticker_poll_tick (m : Manager) (p : Option String) : Manager :=
  match p with
  | none => m
  | some s =>
      if s ≠ m.last_price_str then
        { m with prev_price_str := m.last_price_str, last_price_str := s }
      else m

/-- An inbound websocket message as classified by `_on_message`:
truthiness of `msg.get("event")` / `msg.get("code")`, the two possible
channel fields, and the data blocks (`none` when `data` is absent). -/
structure WsMsg where
  hasEvent : Bool
  hasCode : Bool
  argChannel : Option String
  msgChannel : Option String
  data : Option (List Block)

/-- `channel = arg.get("channel") or msg.get("channel") or ""`. -/
def channelOf (msg : WsMsg) : String :=
  match orStr msg.argChannel msg.msgChannel with
  | none => ""
  | some s => if s = "" then "" else s

/-- Python substring test `"trade" in channel`. -/
def hasTradeSub : List Char → Bool
  | [] => false
  | c :: rest => "trade".toList.isPrefixOf (c :: rest) || hasTradeSub rest

/-- Truthiness of `b.get("bids") or b.get("asks")`: a present, non-empty array. -/
def blockHasBook (b : Block) : Bool :=
  !b.bids.isEmpty || !b.asks.isEmpty

/-- `any(k in b for k in ("p","price","last"))`: key presence. -/
def blockHasTradeKey (b : Block) : Bool :=
  b.p.isSome || b.price.isSome || b.last.isSome

/-- `BitgetManager._on_message`.  Control/ack messages and messages without
data are ignored; book-shaped payloads go through `apply_books`; the trade
branch then calls `self.apply_trades(blocks)` — but `apply_trades` is
commented out in both source files, so that call raises `AttributeError`,
modelled as `Except.error`. -/
def on_message (m : Manager) (msg : WsMsg) : Except String Manager :=
  if msg.hasEvent || msg.hasCode then .ok m
  else
    match msg.data with
    | none => .ok m
    | some blocks =>
        let m1 := if blocks.any blockHasBook then apply_books m blocks else m
        if blocks.any blockHasTradeKey || hasTradeSub (channelOf msg).toList then
          .error "AttributeError: apply_trades"
        else .ok m1

/-- Maximum of a list of rationals (Python `max(keys)`), `none` on `[]`. -/
def listMax : List ℚ → Option ℚ
  | [] => none
  | p :: ps =>
      match listMax ps with
      | none => some p
      | some m => some (max p m)

/-- Minimum of a list of rationals (Python `min(keys)`), `none` on `[]`. -/
def listMin : List ℚ → Option ℚ
  | [] => none
  | p :: ps =>
      match listMin ps with
      | none => some p
      | some m => some (min p m)

/-- `sum(side.values())`. -/
def totalQty (side : Side) : ℚ :=
  (side.map Prod.snd).sum

/-- The values returned by `BitgetManager.get_metrics`
(the wall-clock `latency` field is omitted). -/
structure Metrics where
  best_bid : ℚ
  best_ask : ℚ
  spread : ℚ
  spread_pct : ℚ
  imbalance : ℚ

/-- `BitgetManager.get_metrics`: best bid is `max(bids.keys())` when the side
is non-empty else `Decimal(0)`, best ask is `min(asks.keys())` else 0;
spread and spread-percent are computed only under
`best_bid > 0 and best_ask > 0`; imbalance defaults to `0.5` and becomes
`total_buy_vol / (total_buy_vol + total_sell_vol)` when that denominator is
positive (the `float(...)` conversion is modelled as exact division). -/
def get_metrics (m : Manager) : Metrics :=
  let best_bid := (listMax (m.bids.map Prod.fst)).getD 0
  let best_ask := (listMin (m.asks.map Prod.fst)).getD 0
  let spread := if 0 < best_bid ∧ 0 < best_ask then best_ask - best_bid else 0
  let spread_pct :=
    if 0 < best_bid ∧ 0 < best_ask then ((best_ask - best_bid) / best_ask) * 100
    else 0
  let tb := totalQty m.bids
  let ts := totalQty m.asks
  let imbalance := if 0 < tb + ts then tb / (tb + ts) else 1 / 2
  ⟨best_bid, best_ask, spread, spread_pct, imbalance⟩

/-- Ordering used by `sorted(side.items(), key=lambda x: x[1], reverse=True)`:
greater-or-equal quantity comes first. -/
def qtyGE (a b : ℚ × ℚ) : Prop := b.2 ≤ a.2

instance : DecidableRel qtyGE :=
  fun a b => inferInstanceAs (Decidable (b.2 ≤ a.2))

instance : IsTotal (ℚ × ℚ) qtyGE :=
  ⟨fun a b => le_total b.2 a.2⟩

instance : IsTrans (ℚ × ℚ) qtyGE :=
  ⟨fun _ _ _ h1 h2 => le_trans h2 h1⟩

/-- `sorted(side.items(), key=lambda x: x[1], reverse=True)`: a stable sort
by quantity descending (any stable sort computes the same list, so a stable
insertion sort is a faithful embedding of Python Timsort here). -/
def sortByQtyDesc (side : Side) : Side :=
  List.insertionSort qtyGE side

/-- `sorted(...)[:n]`: the top-`n`-by-quantity selection used by both
`build_dataframe` and `get_support_resistance`. -/
def topN (n : ℕ) (side : Side) : Side :=
  (sortByQtyDesc side).take n

/-- `BitgetManager.get_support_resistance`: `(supports, resistances)`,
the same selection rule applied independently with `count`. -/
def get_support_resistance (m : Manager) (count : ℕ) : Side × Side :=
  (topN count m.bids, topN count m.asks)

/-- The scan of `build_dataframe`: running best index/distance, strict `<`
comparison, indices counted from `i`. -/
def argminLoop : List ℚ → ℕ → ℕ → ℚ → ℕ × ℚ
  | [], _, bi, bd => (bi, bd)
  | d :: rest, i, bi, bd =>
      if d < bd then argminLoop rest (i + 1) i d
      else argminLoop rest (i + 1) bi bd

/-- Nearest-to-price index over one selected side:
`best_idx = 0`, `best_dist = abs(cur - side[0].price)`, then one pass with
`if d < best_dist`; `none` for an empty selection. -/
def nearestIdx (cur : ℚ) (l : Side) : Option ℕ :=
  match l with
  | [] => none
  | (p0, _) :: _ =>
      some (argminLoop (l.map (fun e => |cur - e.1|)) 0 0 (|cur - p0|)).1

/-- The guard around the scan: no marking when the current price is
unavailable (`last_price_str` empty, giving `cur_price == "N/A"`, or the
`Decimal` parse raising — both modelled as `none`). -/
def markIdx (cur : Option ℚ) (l : Side) : Option ℕ :=
  match cur with
  | none => none
  | some c => nearestIdx c l

/-- The distances scanned for one side: `abs(cur - price)` per selected row. -/
def distsOf (cur : ℚ) (l : Side) : List ℚ :=
  l.map (fun e => |cur - e.1|)

/-- The selection/marking core of `BitgetManager.build_dataframe`.
`curParse` abstracts `Decimal(str(cur_price))` applied to
`last_price_str`: `none` when the string is empty or unparsable. -/
structure TopView where
  top_asks : Side
  top_bids : Side
  nearest_ask_idx : Option ℕ
  nearest_bid_idx : Option ℕ

/-- `BitgetManager.build_dataframe`, restricted to the selection and
nearest-to-price marking the claims are about (string formatting of rows
and dataframe attributes are presentation, not modelled). -/
def build_dataframe (m : Manager) (TOP_N : ℕ) (curParse : Option ℚ) : TopView :=
  ⟨topN TOP_N m.asks, topN TOP_N m.bids,
   markIdx curParse (topN TOP_N m.asks), markIdx curParse (topN TOP_N m.bids)⟩

/-- `backoff = min(10, backoff * 1.5)` of `_ws_runloop`. -/
def backoffNext (b : ℚ) : ℚ :=
  min 10 (b * (3 / 2))

/-- Delays slept by `_ws_runloop` over a sequence of iterations, starting
from backoff value `b` (`1.0` on entry).  `true` is an iteration whose
`run_forever` raised: sleep the current backoff, then grow it.  `false` is a
normal return (clean close): sleep the fixed `0.5`, backoff untouched —
the source never resets `backoff` to its initial value. -/
def runDelays : List Bool → ℚ → List ℚ
  | [], _ => []
  | e :: es, b =>
      if e then b :: runDelays es (backoffNext b)
      else (1 / 2) :: runDelays es b

/-- `if symbol: self.symbol = symbol` of `restart` (Python truthiness:
`None` and `""` leave the field unchanged). -/
def applySymbolArg (cur : String) (arg : Option String) : String :=
  match arg with
  | none => cur
  | some s => if s = "" then cur else s

/-- `if top_n: self.top_n = top_n` of `restart` (Python truthiness:
`None` and `0` leave the field unchanged). -/
def applyTopNArg (cur : ℕ) (arg : Option ℕ) : ℕ :=
  match arg with
  | none => cur
  | some n => if n = 0 then cur else n

/-- `BitgetManager.restart(symbol, top_n)` up to the point just before
`start()` is invoked: `stop()` (running := false), the truthiness-guarded
parameter assignments, then `_clear_books()`.  The `start()` that follows
performs network I/O, modelled separately by `init_snapshot_books` and
`init_snapshot_ticker`. -/
def restart_pre_start (m : Manager) (symbol : Option String)
    (top_n : Option ℕ) : Manager :=
  { m with running := false,
           symbol := applySymbolArg m.symbol symbol,
           top_n := applyTopNArg m.top_n top_n,
           bids := [], asks := [] }

/- Helper lemmas shared by the claim theorems. -/

theorem lookupLevel_setLevel_self (s : Side) (p q : ℚ) :
    lookupLevel (setLevel s p q) p = some q := by
  induction s with
  | nil => simp [setLevel, lookupLevel]
  | cons e rest ih =>
      by_cases h : e.1 = p
      · simp [setLevel, h, lookupLevel]
      · simpa [setLevel, h, lookupLevel] using ih

theorem lookupLevel_popLevel_self (s : Side) (p : ℚ) :
    lookupLevel (popLevel s p) p = none := by
  induction s with
  | nil => simp [popLevel, lookupLevel]
  | cons e rest ih =>
      by_cases h : e.1 = p
      · simpa [popLevel, h, lookupLevel] using ih
      · simpa [popLevel, h, lookupLevel] using ih

theorem listMax_eq_none_iff (l : List ℚ) : listMax l = none ↔ l = [] := by
  cases l with
  | nil => simp [listMax]
  | cons p ps =>
      constructor
      · intro h
        rw [listMax] at h
        cases hm : listMax ps with
        | none => rw [hm] at h; exact absurd h (by simp)
        | some m => rw [hm] at h; exact absurd h (by simp)
      · intro h; exact absurd h (by simp)

theorem listMax_mem : ∀ (l : List ℚ) (m : ℚ), listMax l = some m → m ∈ l := by
  intro l
  induction l with
  | nil => intro m h; simp [listMax] at h
  | cons p ps ih =>
      intro m h
      rw [listMax] at h
      cases hm : listMax ps with
      | none =>
          rw [hm] at h
          have hp : p = m := by simpa using h
          simp [← hp]
      | some m' =>
          rw [hm] at h
          have hmx : max p m' = m := by simpa using h
          rcases max_choice p m' with hc | hc
          · rw [← hmx, hc]; exact List.mem_cons_self p ps
          · rw [← hmx, hc]; exact List.mem_cons_of_mem p (ih m' hm)

theorem le_listMax : ∀ (l : List ℚ) (a m : ℚ), a ∈ l → listMax l = some m → a ≤ m := by
  intro l
  induction l with
  | nil => intro a m ha _; simp at ha
  | cons p ps ih =>
      intro a m ha h
      rw [listMax] at h
      cases hm : listMax ps with
      | none =>
          rw [hm] at h
          have hp : p = m := by simpa using h
          have hps : ps = [] := (listMax_eq_none_iff ps).mp hm
          subst hps
          simp at ha
          rw [ha, hp]
      | some m' =>
          rw [hm] at h
          have hmx : max p m' = m := by simpa using h
          rcases List.mem_cons.mp ha with hap | haps
          · rw [hap, ← hmx]; exact le_max_left p m'
          · rw [← hmx]; exact le_trans (ih a m' haps hm) (le_max_right p m')

theorem listMin_eq_none_iff (l : List ℚ) : listMin l = none ↔ l = [] := by
  cases l with
  | nil => simp [listMin]
  | cons p ps =>
      constructor
      · intro h
        rw [listMin] at h
        cases hm : listMin ps with
        | none => rw [hm] at h; exact absurd h (by simp)
        | some m => rw [hm] at h; exact absurd h (by simp)
      · intro h; exact absurd h (by simp)

theorem listMin_mem : ∀ (l : List ℚ) (m : ℚ), listMin l = some m → m ∈ l := by
  intro l
  induction l with
  | nil => intro m h; simp [listMin] at h
  | cons p ps ih =>
      intro m h
      rw [listMin] at h
      cases hm : listMin ps with
      | none =>
          rw [hm] at h
          have hp : p = m := by simpa using h
          simp [← hp]
      | some m' =>
          rw [hm] at h
          have hmx : min p m' = m := by simpa using h
          rcases min_choice p m' with hc | hc
          · rw [← hmx, hc]; exact List.mem_cons_self p ps
          · rw [← hmx, hc]; exact List.mem_cons_of_mem p (ih m' hm)

theorem listMin_le : ∀ (l : List ℚ) (a m : ℚ), a ∈ l → listMin l = some m → m ≤ a := by
  intro l
  induction l with
  | nil => intro a m ha _; simp at ha
  | cons p ps ih =>
      intro a m ha h
      rw [listMin] at h
      cases hm : listMin ps with
      | none =>
          rw [hm] at h
          have hp : p = m := by simpa using h
          have hps : ps = [] := (listMin_eq_none_iff ps).mp hm
          subst hps
          simp at ha
          rw [ha, ← hp]
      | some m' =>
          rw [hm] at h
          have hmx : min p m' = m := by simpa using h
          rcases List.mem_cons.mp ha with hap | haps
          · rw [hap, ← hmx]; exact min_le_left p m'
          · rw [← hmx]; exact le_trans (min_le_right p m') (ih a m' haps hm)

theorem totalQty_nonneg (side : Side) (h : ∀ e ∈ side, 0 ≤ e.2) :
    0 ≤ totalQty side := by
  refine List.sum_nonneg ?_
  intro x hx
  rcases List.mem_map.mp hx with ⟨e, he, rfl⟩
  exact h e he

theorem argminLoop_spec : ∀ (ds : List ℚ) (i bi : ℕ) (bd : ℚ),
    (argminLoop ds i bi bd).2 ≤ bd ∧
    (∀ k, k < ds.length → (argminLoop ds i bi bd).2 ≤ ds.getD k 0) ∧
    ((argminLoop ds i bi bd).1 = bi ∧ (argminLoop ds i bi bd).2 = bd ∨
      ∃ k, k < ds.length ∧ (argminLoop ds i bi bd).1 = i + k ∧
        (argminLoop ds i bi bd).2 = ds.getD k 0 ∧
        (argminLoop ds i bi bd).2 < bd ∧
        ∀ j, j < k → (argminLoop ds i bi bd).2 < ds.getD j 0) := by
  intro ds
  induction ds with
  | nil =>
      intro i bi bd
      refine ⟨le_refl bd, ?_, Or.inl ⟨rfl, rfl⟩⟩
      intro k hk
      simp at hk
  | cons d rest ih =>
      intro i bi bd
      by_cases hd : d < bd
      · rw [argminLoop, if_pos hd]
        obtain ⟨hA, hB, hC⟩ := ih (i + 1) i d
        refine ⟨le_trans hA (le_of_lt hd), ?_, ?_⟩
        · intro k hk
          cases k with
          | zero => simpa using hA
          | succ k' =>
              simp only [List.getD_cons_succ]
              exact hB k' (by simpa using hk)
        · rcases hC with ⟨h1, h2⟩ | ⟨k, hk, h1, h2, h3, h4⟩
          · right
            refine ⟨0, by simp, by omega, by simpa using h2, ?_, ?_⟩
            · rw [h2]; exact hd
            · intro j hj; omega
          · right
            refine ⟨k + 1, by simpa using hk, by omega, by simpa using h2,
                    lt_trans h3 hd, ?_⟩
            intro j hj
            cases j with
            | zero =>
                simp only [List.getD_cons_zero]
                exact h3
            | succ j' =>
                simp only [List.getD_cons_succ]
                exact h4 j' (by omega)
      · rw [argminLoop, if_neg hd]
        obtain ⟨hA, hB, hC⟩ := ih (i + 1) bi bd
        refine ⟨hA, ?_, ?_⟩
        · intro k hk
          cases k with
          | zero =>
              simp only [List.getD_cons_zero]
              exact le_trans hA (le_of_not_lt hd)
          | succ k' =>
              simp only [List.getD_cons_succ]
              exact hB k' (by simpa using hk)
        · rcases hC with ⟨h1, h2⟩ | ⟨k, hk, h1, h2, h3, h4⟩
          · exact Or.inl ⟨h1, h2⟩
          · right
            refine ⟨k + 1, by simpa using hk, by omega, by simpa using h2, h3, ?_⟩
            intro j hj
            cases j with
            | zero =>
                simp only [List.getD_cons_zero]
                exact lt_of_lt_of_le h3 (le_of_not_lt hd)
            | succ j' =>
                simp only [List.getD_cons_succ]
                exact h4 j' (by omega)

theorem nearestIdx_spec (cur : ℚ) (l : Side) (i : ℕ)
    (h : nearestIdx cur l = some i) :
    i < l.length ∧
    (∀ j, j < l.length → (distsOf cur l).getD i 0 ≤ (distsOf cur l).getD j 0) ∧
    (∀ j, j < i → (distsOf cur l).getD i 0 < (distsOf cur l).getD j 0) := by
  match l with
  | [] => simp [nearestIdx] at h
  | (p0, q0) :: rest =>
      have hsome : (argminLoop (distsOf cur ((p0, q0) :: rest)) 0 0
          (|cur - p0|)).1 = i := by
        simpa [nearestIdx, distsOf] using h
      obtain ⟨hA, hB, hC⟩ :=
        argminLoop_spec (distsOf cur ((p0, q0) :: rest)) 0 0 (|cur - p0|)
      have hd0 : (distsOf cur ((p0, q0) :: rest)).getD 0 0 = |cur - p0| := by
        simp [distsOf]
      have hlen : (distsOf cur ((p0, q0) :: rest)).length =
          ((p0, q0) :: rest : Side).length := by
        simp [distsOf]
      rcases hC with ⟨h1, h2⟩ | ⟨k, hk, h1, h2, h3, h4⟩
      · have hi0 : i = 0 := by rw [← hsome, h1]
        subst hi0
        refine ⟨by simp, ?_, ?_⟩
        · intro j hj
          rw [hd0, ← h2]
          exact hB j (by rw [hlen]; exact hj)
        · intro j hj
          omega
      · have hik : i = k := by rw [← hsome, h1]; omega
        subst hik
        refine ⟨by rw [← hlen]; exact hk, ?_, ?_⟩
        · intro j hj
          rw [← h2]
          exact hB j (by rw [hlen]; exact hj)
        · intro j hj
          rw [← h2]
          exact h4 j hj

/- Concrete states and inputs used by counterexamples and witnesses. -/

/-- A stream message on the `trades` channel whose single data block carries
a trade price in field `p`, as Bitget sends them. -/
def tradeMsg : WsMsg :=
  ⟨false, false, some "trades", none, some [⟨[], [], some "42", none, none⟩]⟩

/-- A delta batch whose single block sets bid price 100 to quantity −5. -/
def bookDeltaNeg : Block :=
  ⟨[[some 100, some (-5)]], [], none, none, none⟩

/-- A manager holding a current price `"100"` and an empty previous price. -/
def mgrEqPrice : Manager := ⟨[], [], "100", "", "BTCUSDT", 5, true⟩

/-- A manager still holding book levels and prices from a prior run. -/
def mgrPrior : Manager := ⟨[(100, 2)], [(101, 3)], "100", "99", "BTCUSDT", 5, true⟩

/-- A book with equal, non-zero volume on both sides. -/
def mgrBalanced : Manager := ⟨[(1, 2)], [(2, 2)], "", "", "BTCUSDT", 5, true⟩

/-- A book whose best bid sits at price 0 (reachable: an unparsable price
string is coerced to `Decimal(0)` by `D` and stored). -/
def mgrZeroPrice : Manager := ⟨[(0, 5)], [(10, 1)], "", "", "BTCUSDT", 5, true⟩

/-- A small book with strictly positive prices on both sides. -/
def mgrPos : Manager := ⟨[(9, 1)], [(10, 1)], "", "", "BTCUSDT", 5, true⟩

/-- Claim C1: the claim says message dispatch updates the ticker tracker with
the latest price in the batch for trade-shaped or trade-channel messages.
The code instead calls `self.apply_trades(blocks)`, a method that is
commented out in both source files, so every such message raises
`AttributeError` and the ticker is never updated.  This theorem evaluates
the dispatch at such a message from any state. -/
theorem C1_trade_dispatch_raises (m : Manager) :
    on_message m tradeMsg = Except.error "AttributeError: apply_trades" := rfl

/-- Claim C2 counterexample: a delta entry with parsed quantity −5 is stored
in the book (only quantity exactly 0 removes), and the bootstrap snapshot
stores a parsed quantity 0 unconditionally — refuting the claim that no
level with non-positive quantity ever exists after a mutating operation. -/
theorem C2_counterexample :
    lookupLevel (apply_books initManager [bookDeltaNeg]).bids 100 = some (-5) ∧
    ((-5 : ℚ) < 0) ∧
    lookupLevel (init_snapshot_books initManager
        (some ([[some 100, some 0]], []))).bids 100 = some 0 := by
  refine ⟨?_, by norm_num, ?_⟩
  · show lookupLevel (applyEntry [] [some 100, some (-5)]) 100 = some (-5)
    norm_num [applyEntry, D, setLevel, lookupLevel]
  · show lookupLevel (initEntry [] [some 100, some 0]) 100 = some 0
    norm_num [initEntry, D, setLevel, lookupLevel]

/-- Claim C2 amended: delta application removes a price key exactly when the
parsed quantity equals zero and otherwise stores the parsed quantity —
including negative values; the bootstrap snapshot stores every well-formed
entry's parsed quantity with no positivity check at all. -/
theorem C2_amended (side : Side) (v0 v1 : RawVal) :
    (D v1 ≠ 0 → lookupLevel (applyEntry side [v0, v1]) (D v0) = some (D v1)) ∧
    (D v1 = 0 → lookupLevel (applyEntry side [v0, v1]) (D v0) = none) ∧
    lookupLevel (initEntry side [v0, v1]) (D v0) = some (D v1) := by
  refine ⟨?_, ?_, ?_⟩
  · intro h
    simp only [applyEntry, if_neg h]
    exact lookupLevel_setLevel_self side (D v0) (D v1)
  · intro h
    simp only [applyEntry, if_pos h]
    exact lookupLevel_popLevel_self side (D v0)
  · simp only [initEntry]
    exact lookupLevel_setLevel_self side (D v0) (D v1)

/-- Witness for C2: a non-zero quantity (7) is stored, a zero quantity
removes an existing level at price 100. -/
theorem C2_amended_witness :
    D (some 7) ≠ 0 ∧
    lookupLevel (applyEntry [] [some 100, some 7]) (D (some 100)) =
      some (D (some 7)) ∧
    D (some 0) = 0 ∧
    lookupLevel (applyEntry [(100, 2)] [some 100, some 0]) (D (some 100)) =
      none :=
  ⟨by decide, (C2_amended [] (some 100) (some 7)).1 (by decide), by decide,
   (C2_amended [(100, 2)] (some 100) (some 0)).2.1 (by decide)⟩

/-- Claim C3 counterexample: the bootstrap ticker path receives a price equal
to the stored current price (`"100"`); the claim says both current and
previous are then left unchanged, but the code shifts current to previous
unconditionally, so `prev_price_str` changes from `""` to `"100"`. -/
theorem C3_counterexample :
    (init_snapshot_ticker mgrEqPrice (some "100")).last_price_str =
      mgrEqPrice.last_price_str ∧
    (init_snapshot_ticker mgrEqPrice (some "100")).prev_price_str ≠
      mgrEqPrice.prev_price_str := by
  refine ⟨rfl, ?_⟩
  decide

/-- Claim C3 amended: the REST poll path updates previous only when current
actually changes (its guard is `str(p) != last_price_str`); the bootstrap
path, by contrast, shifts current to previous unconditionally whenever a
price field is present, even when it equals the stored current (and the
stream trade path never updates at all, see C1). -/
theorem C3_amended (m : Manager) (p : Option String) :
    ((ticker_poll_tick m p).prev_price_str ≠ m.prev_price_str →
      (ticker_poll_tick m p).last_price_str ≠ m.last_price_str) ∧
    (∀ s, (init_snapshot_ticker m (some s)).prev_price_str =
            m.last_price_str ∧
          (init_snapshot_ticker m (some s)).last_price_str = s) := by
  constructor
  · intro hprev
    cases p with
    | none => exact absurd rfl hprev
    | some s =>
        by_cases hs : s ≠ m.last_price_str
        · simp only [ticker_poll_tick, if_pos hs]
          exact hs
        · simp only [ticker_poll_tick, if_neg hs] at hprev
          exact absurd rfl hprev
  · intro s
    exact ⟨rfl, rfl⟩

/-- Witness for C3: a poll tick bringing a genuinely new price (`"101"` over
`"100"`) changes previous, and the theorem yields that current changed too. -/
theorem C3_amended_witness :
    (ticker_poll_tick mgrEqPrice (some "101")).prev_price_str ≠
      mgrEqPrice.prev_price_str ∧
    (ticker_poll_tick mgrEqPrice (some "101")).last_price_str ≠
      mgrEqPrice.last_price_str :=
  ⟨by decide, (C3_amended mgrEqPrice (some "101")).1 (by decide)⟩

/-- Claim C4 counterexample: on the request-exception path (network error or
malformed JSON, modelled by `none`) the bootstrap leaves the book exactly as
it was — here non-empty from a prior run — and the ticker keeps the prior
price; the claim says both are left empty. -/
theorem C4_counterexample :
    (init_snapshot_books mgrPrior none).bids ≠ [] ∧
    (init_snapshot_books mgrPrior none).asks ≠ [] ∧
    (init_snapshot_ticker mgrPrior none).last_price_str ≠ "" := by
  refine ⟨?_, ?_, ?_⟩ <;> decide

/-- Claim C4 amended: on a request exception the bootstrap leaves the book
unchanged from the prior run; only a non-200/empty-data response (`js = {}`)
clears the book; and no failure mode ever clears the ticker price strings,
so prices survive from a prior run. -/
theorem C4_amended (m : Manager) :
    init_snapshot_books m none = m ∧
    init_snapshot_ticker m none = m ∧
    (init_snapshot_books m (some ([], []))).bids = [] ∧
    (init_snapshot_books m (some ([], []))).asks = [] ∧
    (∀ resp, (init_snapshot_books m resp).last_price_str =
        m.last_price_str ∧
      (init_snapshot_books m resp).prev_price_str = m.prev_price_str) := by
  refine ⟨rfl, rfl, rfl, rfl, ?_⟩
  intro resp
  rcases resp with _ | ⟨a, b⟩ <;> exact ⟨rfl, rfl⟩

/-- Claim C5 counterexample: after one failure (backoff grows to 1.5) and one
successful period (clean close), the next failure sleeps 1.5 — not the
initial 1 the claim's reset-on-success policy would give.  `_ws_runloop`
never resets `backoff`. -/
theorem C5_counterexample :
    runDelays [true, false, true] 1 = [1, 1 / 2, 3 / 2] ∧
    ((3 : ℚ) / 2 ≠ 1) := by
  constructor
  · simp only [runDelays, backoffNext, if_true, if_false]
    norm_num
  · norm_num

theorem backoffNext_le_ten (b : ℚ) : backoffNext b ≤ 10 :=
  min_le_left 10 (b * (3 / 2))

theorem backoffNext_nonneg (b : ℚ) (hb : 0 ≤ b) : 0 ≤ backoffNext b :=
  le_min (by norm_num) (by linarith)

theorem le_backoffNext (b : ℚ) (h0 : 0 ≤ b) (h10 : b ≤ 10) :
    b ≤ backoffNext b :=
  le_min h10 (by linarith)

theorem runDelays_replicate_chain : ∀ (k : ℕ) (b : ℚ), 0 ≤ b → b ≤ 10 →
    List.Chain' (fun x y => x ≤ y) (runDelays (List.replicate k true) b) := by
  intro k
  induction k with
  | zero => intro b _ _; simp [runDelays]
  | succ k ih =>
      intro b hb0 hb10
      rw [List.replicate_succ]
      simp only [runDelays, if_true]
      rw [List.chain'_cons']
      refine ⟨?_, ih (backoffNext b) (backoffNext_nonneg b hb0)
        (backoffNext_le_ten b)⟩
      intro h hh
      cases k with
      | zero => simp [runDelays] at hh
      | succ k' =>
          rw [List.replicate_succ] at hh
          simp only [runDelays, if_true, List.head?_cons] at hh
          have hh' : h = backoffNext b := by
            have := hh
            simp at this
            exact this.symm
          rw [hh']
          exact le_backoffNext b hb0 hb10

theorem runDelays_le_ten : ∀ (es : List Bool) (b : ℚ), 0 ≤ b → b ≤ 10 →
    ∀ d ∈ runDelays es b, d ≤ 10 := by
  intro es
  induction es with
  | nil => intro b _ _ d hd; simp [runDelays] at hd
  | cons e rest ih =>
      intro b hb0 hb10 d hd
      cases e with
      | true =>
          simp only [runDelays, if_true] at hd
          rcases List.mem_cons.mp hd with h | h
          · rw [h]; exact hb10
          · exact ih (backoffNext b) (backoffNext_nonneg b hb0)
              (backoffNext_le_ten b) d h
      | false =>
          simp only [runDelays, if_false] at hd
          rcases List.mem_cons.mp hd with h | h
          · rw [h]; norm_num
          · exact ih b hb0 hb10 d h

/-- Claim C5 amended: the backoff delay starts at 1, multiplies by 1.5 after
each consecutive failure and is capped at 10 — the three-failure scenario
sleeps exactly 1, 1.5, 2.25 and failure-only delay sequences are
non-decreasing and never exceed 10 — but it is never reset: a successful
period merely sleeps a fixed 0.5 and leaves the backoff value untouched. -/
theorem C5_amended :
    runDelays [true, true, true] 1 = [1, 3 / 2, 9 / 4] ∧
    (∀ (k : ℕ) (b : ℚ), 0 ≤ b → b ≤ 10 →
      List.Chain' (fun x y => x ≤ y) (runDelays (List.replicate k true) b)) ∧
    (∀ (es : List Bool) (b : ℚ), 0 ≤ b → b ≤ 10 →
      ∀ d ∈ runDelays es b, d ≤ 10) ∧
    (∀ (es : List Bool) (b : ℚ),
      runDelays (false :: es) b = 1 / 2 :: runDelays es b) := by
  refine ⟨?_, runDelays_replicate_chain, runDelays_le_ten, ?_⟩
  · simp only [runDelays, backoffNext, if_true]
    norm_num
  · intro es b
    simp [runDelays]

/-- Witness for C5: from the initial backoff value 1 (which satisfies the
bounds), three consecutive failures give non-decreasing delays, all ≤ 10. -/
theorem C5_amended_witness :
    (0 : ℚ) ≤ 1 ∧ (1 : ℚ) ≤ 10 ∧
    List.Chain' (fun x y => x ≤ y)
      (runDelays (List.replicate 3 true) 1) ∧
    (∀ d ∈ runDelays [true, false] 1, d ≤ 10) :=
  ⟨by decide, by decide,
   C5_amended.2.1 3 1 (by decide) (by decide),
   C5_amended.2.2.1 [true, false] 1 (by decide) (by decide)⟩

/-- Claim C6 counterexample: a book with equal non-zero volume on both sides
also yields imbalance 0.5, refuting "equals 0.5 exactly when both sides are
empty" (the value 0.5 does not characterise emptiness). -/
theorem C6_counterexample :
    (get_metrics mgrBalanced).imbalance = 1 / 2 ∧
    mgrBalanced.bids ≠ [] ∧ mgrBalanced.asks ≠ [] := by
  refine ⟨?_, by simp [mgrBalanced], by simp [mgrBalanced]⟩
  show (if 0 < totalQty mgrBalanced.bids + totalQty mgrBalanced.asks
    then totalQty mgrBalanced.bids /
      (totalQty mgrBalanced.bids + totalQty mgrBalanced.asks)
    else 1 / 2) = 1 / 2
  norm_num [totalQty, mgrBalanced]

/-- Claim C6 amended: the imbalance equals total bid quantity divided by the
combined quantity whenever that combined quantity is positive, and defaults
to 0.5 otherwise (in particular on an empty book); for books whose stored
quantities are non-negative it always lies in [0, 1].  The value 0.5 is not
exclusive to the empty book (see the counterexample). -/
theorem C6_amended (m : Manager) (hb : ∀ e ∈ m.bids, 0 ≤ e.2)
    (ha : ∀ e ∈ m.asks, 0 ≤ e.2) :
    (0 ≤ (get_metrics m).imbalance ∧ (get_metrics m).imbalance ≤ 1) ∧
    (m.bids = [] → m.asks = [] → (get_metrics m).imbalance = 1 / 2) ∧
    (0 < totalQty m.bids + totalQty m.asks →
      (get_metrics m).imbalance =
        totalQty m.bids / (totalQty m.bids + totalQty m.asks)) := by
  have htb := totalQty_nonneg m.bids hb
  have hts := totalQty_nonneg m.asks ha
  have himb : (get_metrics m).imbalance =
      if 0 < totalQty m.bids + totalQty m.asks
      then totalQty m.bids / (totalQty m.bids + totalQty m.asks)
      else 1 / 2 := rfl
  by_cases hpos : 0 < totalQty m.bids + totalQty m.asks
  · rw [himb, if_pos hpos]
    refine ⟨⟨div_nonneg htb (le_of_lt hpos), ?_⟩, ?_, fun _ => rfl⟩
    · exact (div_le_one hpos).mpr (le_add_of_nonneg_right hts)
    · intro h1 h2
      rw [h1, h2] at hpos
      simp [totalQty] at hpos
  · rw [himb, if_neg hpos]
    exact ⟨⟨by norm_num, by norm_num⟩, fun _ _ => rfl,
      fun hp => absurd hp hpos⟩

/-- Witness for C6: the balanced book has non-negative quantities, and the
theorem places its imbalance inside [0, 1]. -/
theorem C6_amended_witness :
    (∀ e ∈ mgrBalanced.bids, (0 : ℚ) ≤ e.2) ∧
    (0 ≤ (get_metrics mgrBalanced).imbalance ∧
      (get_metrics mgrBalanced).imbalance ≤ 1) :=
  ⟨by decide, (C6_amended mgrBalanced (by decide) (by decide)).1⟩

/-- Claim C7 counterexample: with a bid resting at price 0 (reachable, since
`D` coerces an unparsable price string to 0) both sides are present, yet the
code leaves spread at 0 because its guard is `best_bid > 0 and best_ask > 0`,
not "both sides present"; the claim's value best ask − best bid would be 10. -/
theorem C7_counterexample :
    mgrZeroPrice.bids ≠ [] ∧ mgrZeroPrice.asks ≠ [] ∧
    (get_metrics mgrZeroPrice).spread = 0 ∧
    (get_metrics mgrZeroPrice).best_ask - (get_metrics mgrZeroPrice).best_bid
      = 10 ∧
    (get_metrics mgrZeroPrice).spread ≠
      (get_metrics mgrZeroPrice).best_ask -
        (get_metrics mgrZeroPrice).best_bid := by
  have hbb : (get_metrics mgrZeroPrice).best_bid = 0 := by
    show (listMax (mgrZeroPrice.bids.map Prod.fst)).getD 0 = 0
    norm_num [mgrZeroPrice, listMax]
  have hba : (get_metrics mgrZeroPrice).best_ask = 10 := by
    show (listMin (mgrZeroPrice.asks.map Prod.fst)).getD 0 = 10
    norm_num [mgrZeroPrice, listMin]
  have hsp : (get_metrics mgrZeroPrice).spread = 0 := by
    show (if 0 < (listMax (mgrZeroPrice.bids.map Prod.fst)).getD 0 ∧
            0 < (listMin (mgrZeroPrice.asks.map Prod.fst)).getD 0
          then (listMin (mgrZeroPrice.asks.map Prod.fst)).getD 0 -
            (listMax (mgrZeroPrice.bids.map Prod.fst)).getD 0
          else 0) = 0
    norm_num [mgrZeroPrice, listMax, listMin]
  refine ⟨by simp [mgrZeroPrice], by simp [mgrZeroPrice], hsp, ?_, ?_⟩
  · rw [hbb, hba]; norm_num
  · rw [hsp, hbb, hba]; norm_num

/-- Claim C7 amended: best bid is the maximum bid price (0 when the bid side
is empty) and best ask the minimum ask price (0 when empty); spread and
spread-percent are computed only when best bid AND best ask are both
strictly positive — which implies spread is 0 whenever either side is empty,
and coincides with "both sides present" only for books whose prices are all
positive. -/
theorem C7_amended (m : Manager) :
    (m.bids = [] → (get_metrics m).best_bid = 0) ∧
    (m.asks = [] → (get_metrics m).best_ask = 0) ∧
    (m.bids ≠ [] → (get_metrics m).best_bid ∈ m.bids.map Prod.fst ∧
      ∀ p ∈ m.bids.map Prod.fst, p ≤ (get_metrics m).best_bid) ∧
    (m.asks ≠ [] → (get_metrics m).best_ask ∈ m.asks.map Prod.fst ∧
      ∀ p ∈ m.asks.map Prod.fst, (get_metrics m).best_ask ≤ p) ∧
    ((m.bids = [] ∨ m.asks = []) →
      (get_metrics m).spread = 0 ∧ (get_metrics m).spread_pct = 0) ∧
    (0 < (get_metrics m).best_bid → 0 < (get_metrics m).best_ask →
      (get_metrics m).spread =
        (get_metrics m).best_ask - (get_metrics m).best_bid ∧
      (get_metrics m).spread_pct =
        ((get_metrics m).spread / (get_metrics m).best_ask) * 100) := by
  have hbb : (get_metrics m).best_bid = (listMax (m.bids.map Prod.fst)).getD 0 :=
    rfl
  have hba : (get_metrics m).best_ask = (listMin (m.asks.map Prod.fst)).getD 0 :=
    rfl
  have hsp : (get_metrics m).spread =
      if 0 < (get_metrics m).best_bid ∧ 0 < (get_metrics m).best_ask
      then (get_metrics m).best_ask - (get_metrics m).best_bid else 0 := rfl
  have hpct : (get_metrics m).spread_pct =
      if 0 < (get_metrics m).best_bid ∧ 0 < (get_metrics m).best_ask
      then (((get_metrics m).best_ask - (get_metrics m).best_bid) /
        (get_metrics m).best_ask) * 100 else 0 := rfl
  have hbidE : m.bids = [] → (get_metrics m).best_bid = 0 := by
    intro h
    rw [hbb, h]
    simp [listMax]
  have haskE : m.asks = [] → (get_metrics m).best_ask = 0 := by
    intro h
    rw [hba, h]
    simp [listMin]
  refine ⟨hbidE, haskE, ?_, ?_, ?_, ?_⟩
  · intro h
    have hmap : m.bids.map Prod.fst ≠ [] := by
      intro hc
      exact h (List.map_eq_nil_iff.mp hc)
    obtain ⟨mx, hmx⟩ : ∃ mx, listMax (m.bids.map Prod.fst) = some mx := by
      cases hlm : listMax (m.bids.map Prod.fst) with
      | none => exact absurd ((listMax_eq_none_iff _).mp hlm) hmap
      | some mx => exact ⟨mx, rfl⟩
    have hval : (get_metrics m).best_bid = mx := by rw [hbb, hmx]; rfl
    rw [hval]
    exact ⟨listMax_mem _ mx hmx, fun p hp => le_listMax _ p mx hp hmx⟩
  · intro h
    have hmap : m.asks.map Prod.fst ≠ [] := by
      intro hc
      exact h (List.map_eq_nil_iff.mp hc)
    obtain ⟨mn, hmn⟩ : ∃ mn, listMin (m.asks.map Prod.fst) = some mn := by
      cases hlm : listMin (m.asks.map Prod.fst) with
      | none => exact absurd ((listMin_eq_none_iff _).mp hlm) hmap
      | some mn => exact ⟨mn, rfl⟩
    have hval : (get_metrics m).best_ask = mn := by rw [hba, hmn]; rfl
    rw [hval]
    exact ⟨listMin_mem _ mn hmn, fun p hp => listMin_le _ p mn hp hmn⟩
  · intro h
    have hcond : ¬(0 < (get_metrics m).best_bid ∧
        0 < (get_metrics m).best_ask) := by
      rcases h with h | h
      · intro hc
        rw [hbidE h] at hc
        exact lt_irrefl 0 hc.1
      · intro hc
        rw [haskE h] at hc
        exact lt_irrefl 0 hc.2
    rw [hsp, hpct, if_neg hcond, if_neg hcond]
    exact ⟨rfl, rfl⟩
  · intro h1 h2
    have hcond : 0 < (get_metrics m).best_bid ∧ 0 < (get_metrics m).best_ask :=
      ⟨h1, h2⟩
    constructor
    · rw [hsp, if_pos hcond]
    · rw [hpct, if_pos hcond, hsp, if_pos hcond]

/-- Witness for C7: on a book with positive prices on both sides the spread
really is best ask − best bid and spread-percent the stated ratio. -/
theorem C7_amended_witness :
    (0 < (get_metrics mgrPos).best_bid) ∧
    (0 < (get_metrics mgrPos).best_ask) ∧
    ((get_metrics mgrPos).spread =
      (get_metrics mgrPos).best_ask - (get_metrics mgrPos).best_bid ∧
     (get_metrics mgrPos).spread_pct =
      ((get_metrics mgrPos).spread / (get_metrics mgrPos).best_ask) * 100) :=
  ⟨by decide, by decide,
   (C7_amended mgrPos).2.2.2.2.2 (by decide) (by decide)⟩

/-- Claim C8: top-N selection (used by `build_dataframe`, and identically by
`get_support_resistance` with its own independent `count`) returns at most
N rows per side; the sorted list is a permutation of the side, so the
unselected rows are exactly the dropped suffix, and every selected row's
quantity is ≥ every unselected row's quantity. -/
theorem C8_topn_selection (side : Side) (n : ℕ) :
    (topN n side).length ≤ n ∧
    List.Perm (sortByQtyDesc side) side ∧
    (∀ x ∈ topN n side, ∀ y ∈ (sortByQtyDesc side).drop n, y.2 ≤ x.2) ∧
    (∀ (m : Manager) (count : ℕ),
      (get_support_resistance m count).1 = topN count m.bids ∧
      (get_support_resistance m count).2 = topN count m.asks) := by
  refine ⟨?_, List.perm_insertionSort qtyGE side, ?_,
    fun m count => ⟨rfl, rfl⟩⟩
  · exact List.length_take_le n (sortByQtyDesc side)
  · have hs : List.Sorted qtyGE (sortByQtyDesc side) :=
      List.sorted_insertionSort qtyGE side
    have hsplit : List.Pairwise qtyGE
        ((sortByQtyDesc side).take n ++ (sortByQtyDesc side).drop n) := by
      rw [List.take_append_drop]
      exact hs
    obtain ⟨-, -, hcross⟩ := List.pairwise_append.mp hsplit
    intro x hx y hy
    exact hcross x hx y hy

/-- Witness for C8: in the book `[(1,5),(2,3),(3,9)]` with N = 2 the selected
row `(3,9)` dominates the dropped row `(2,3)`. -/
theorem C8_topn_witness :
    ((3, 9) : ℚ × ℚ) ∈ topN 2 [(1, 5), (2, 3), (3, 9)] ∧
    ((2, 3) : ℚ × ℚ) ∈ (sortByQtyDesc [(1, 5), (2, 3), (3, 9)]).drop 2 ∧
    ((2, 3) : ℚ × ℚ).2 ≤ ((3, 9) : ℚ × ℚ).2 :=
  ⟨by decide, by decide,
   (C8_topn_selection [(1, 5), (2, 3), (3, 9)] 2).2.2.1
     (3, 9) (by decide) (2, 3) (by decide)⟩

/-- Claim C9: no row is marked when the current price is unavailable or the
selection is empty; `build_dataframe` marks each side via `markIdx` over its
top-N selection; and a marked index is in range, attains the minimum
absolute price distance over the selected rows, and strictly beats every
earlier index (first-occurrence tie-break, from the strict `<` scan). -/
theorem C9_nearest_mark :
    (∀ l : Side, markIdx none l = none) ∧
    (∀ c : ℚ, markIdx (some c) [] = none) ∧
    (∀ (m : Manager) (n : ℕ) (c : Option ℚ),
      (build_dataframe m n c).nearest_ask_idx = markIdx c (topN n m.asks) ∧
      (build_dataframe m n c).nearest_bid_idx = markIdx c (topN n m.bids)) ∧
    (∀ (c : ℚ) (l : Side) (i : ℕ), markIdx (some c) l = some i →
      i < l.length ∧
      (∀ j, j < l.length →
        (distsOf c l).getD i 0 ≤ (distsOf c l).getD j 0) ∧
      (∀ j, j < i → (distsOf c l).getD i 0 < (distsOf c l).getD j 0)) := by
  refine ⟨fun l => rfl, fun c => rfl, fun m n c => ⟨rfl, rfl⟩, ?_⟩
  intro c l i h
  exact nearestIdx_spec c l i h

/-- Witness for C9: with current price 8 over the selection
`[(10,1),(7,2)]` the scan marks index 1 (distance 1 beats distance 2),
and the theorem certifies minimality over both rows. -/
theorem C9_nearest_witness :
    markIdx (some 8) [((10 : ℚ), (1 : ℚ)), (7, 2)] = some 1 ∧
    1 < ([((10 : ℚ), (1 : ℚ)), (7, 2)] : Side).length ∧
    (∀ j, j < ([((10 : ℚ), (1 : ℚ)), (7, 2)] : Side).length →
      (distsOf 8 [((10 : ℚ), (1 : ℚ)), (7, 2)]).getD 1 0 ≤
        (distsOf 8 [((10 : ℚ), (1 : ℚ)), (7, 2)]).getD j 0) := by
  have h : markIdx (some 8) [((10 : ℚ), (1 : ℚ)), (7, 2)] = some 1 := by
    norm_num [markIdx, nearestIdx, argminLoop]
  have hs := C9_nearest_mark.2.2.2 8 [((10 : ℚ), (1 : ℚ)), (7, 2)] 1 h
  exact ⟨h, hs.1, hs.2.1⟩

/-- Claim C10: `restart(symbol, top_n)` applies only truthy arguments —
`None`/`""` leave the symbol unchanged and `None`/`0` leave the depth
unchanged — then clears both book sides (and `stop()` has set running to
false) before `start()` runs. -/
theorem C10_restart_params (m : Manager) (s : String) (n : ℕ) :
    (restart_pre_start m none none).symbol = m.symbol ∧
    (restart_pre_start m (some "") (some 0)).symbol = m.symbol ∧
    (restart_pre_start m none none).top_n = m.top_n ∧
    (restart_pre_start m (some "") (some 0)).top_n = m.top_n ∧
    (s ≠ "" → (restart_pre_start m (some s) (some n)).symbol = s) ∧
    (n ≠ 0 → (restart_pre_start m (some s) (some n)).top_n = n) ∧
    (restart_pre_start m (some s) (some n)).bids = [] ∧
    (restart_pre_start m (some s) (some n)).asks = [] ∧
    (restart_pre_start m (some s) (some n)).running = false := by
  refine ⟨rfl, rfl, rfl, rfl, ?_, ?_, rfl, rfl, rfl⟩
  · intro hs
    show applySymbolArg m.symbol (some s) = s
    simp [applySymbolArg, hs]
  · intro hn
    show applyTopNArg m.top_n (some n) = n
    simp [applyTopNArg, hn]

/-- Witness for C10: truthy arguments `"ETHUSDT"` and `10` are applied. -/
theorem C10_restart_witness :
    ("ETHUSDT" ≠ "") ∧ ((10 : ℕ) ≠ 0) ∧
    (restart_pre_start initManager (some "ETHUSDT") (some 10)).symbol =
      "ETHUSDT" ∧
    (restart_pre_start initManager (some "ETHUSDT") (some 10)).top_n = 10 :=
  ⟨by decide, by decide,
   (C10_restart_params initManager "ETHUSDT" 10).2.2.2.2.1 (by decide),
   (C10_restart_params initManager "ETHUSDT" 10).2.2.2.2.2.1 (by decide)⟩
